import Mathlib

/-!
Shallow embedding of the delayed package: a deferred-operation scheduler
that renders text to an output sink with a typewriter cadence.

Modelling conventions, following the Go source:

* A Go string is modelled by its decomposition into grapheme clusters,
  so a text is a list of grapheme strings.  uniseg.GraphemeClusterCount
  is the length of that list and iterating uniseg.NewGraphemes is
  iterating the list.  An operation's text payload keeps the same type:
  a whole text is the full list, a single grapheme g is the list [g].
* time.Duration is int64; it is modelled as Int.  Go division on int64
  truncates toward zero (Int.tdiv) and panics on a zero divisor, so the
  division used by Write is a function into Option Int, none being the
  runtime panic, and Write itself returns Option Delayed.
* The output sink (io.StringWriter) is modelled by an oracle giving,
  for each WriteString call (counted from 0 within one Do run), the
  error that call returns; the trace of texts the sink receives is
  collected by the drain loop.  Cancellation is modelled by whether the
  cancel channel passed to Do is nil and by an oracle saying, for each
  wait operation (counted from 0 within one run), whether the cancel
  channel fires before the wait's timer.
* The completion channel of one Do call is modelled by the list of
  values the executing goroutine sends on it, in order; nil is none.
* The variadic optional arguments of Wait and Write (an explicit
  duration overriding the stored default) are Option Int; fmt.Sprintf
  formatting is orthogonal to every claim and the formatted text is the
  argument itself.  The mutex only serializes calls and is dropped.
-/

/-- A text, as its list of grapheme clusters. -/
abbrev Text := List String

/-- Go: uniseg.GraphemeClusterCount. -/
def GraphemeClusterCount (t : Text) : Nat := t.length

/-- Go integer division on int64 (time.Duration): truncates toward zero,
panics at runtime when the divisor is zero (modelled as none). -/
def goDiv (a b : Int) : Option Int :=
  if b = 0 then none else some (a.tdiv b)

/-- Errors an operation's Run can return: the distinguished errCanceled
sentinel, or an error returned by the sink's WriteString (identified by a
code so distinct sink errors stay distinct and are forwarded verbatim). -/
inductive GoError where
  | canceled
  | sinkError (code : Nat)
deriving DecidableEq, Repr

/-- Go: errors.Is(err, errCanceled). -/
def errorsIsCanceled : GoError → Bool
  | GoError.canceled => true
  | GoError.sinkError _ => false

/-- The two operation variants held in the queue: waitOperation with its
Duration, and writeOperation with its Text (the captured Writer is
modelled once per run by the sink oracle of the environment). -/
inductive Operation where
  | wait (duration : Int)
  | write (text : Text)
deriving DecidableEq, Repr

/-- Properties customizing the Delayed utility (the Writer field is
modelled by the run environment's sink oracle). -/
structure Properties where
  waitDuration : Int
  printDuration : Int
  ignoreDelays : Bool
deriving DecidableEq, Repr

/-- The Delayed scheduler state: its properties and its operation queue. -/
structure Delayed where
  properties : Properties
  operations : List Operation
deriving DecidableEq, Repr

/-- Go: Delayed.pushWaitOperation - appends a waitOperation unless
IgnoreDelays is set or the duration is zero. -/
def pushWaitOperation (d : Delayed) (duration : Int) : Delayed :=
  if !d.properties.ignoreDelays && duration != 0 then
    { d with operations := d.operations ++ [Operation.wait duration] }
  else
    d

/-- Go: Delayed.pushPrintOperation - appends a writeOperation holding the
text. -/
def pushPrintOperation (d : Delayed) (text : Text) : Delayed :=
  { d with operations := d.operations ++ [Operation.write text] }

/-- Go: getDuration - the explicit variadic duration argument if given,
else the stored default. -/
def getDuration (input : Option Int) (defaultDuration : Int) : Int :=
  match input with
  | some dur => dur
  | none => defaultDuration

/-- Go: Delayed.Wait - updates the stored default wait duration, then,
unless the result is zero, pushes a wait operation with it. -/
def Delayed.Wait (d : Delayed) (waitDuration : Option Int) : Delayed :=
  let d1 : Delayed :=
    { d with properties :=
        { d.properties with
            waitDuration := getDuration waitDuration d.properties.waitDuration } }
  if d1.properties.waitDuration = 0 then d1
  else pushWaitOperation d1 d1.properties.waitDuration

/-- Go: the loop over graphemes.Next() inside Delayed.Write, carrying the
appendWaitOperations flag: a wait is pushed before every grapheme's write
except the first. -/
def writeGraphemes (delay : Int) : Delayed → Bool → Text → Delayed
  | d, _, [] => d
  | d, appendWaitOperations, g :: gs =>
    let d1 := if appendWaitOperations then pushWaitOperation d delay else d
    writeGraphemes delay (pushPrintOperation d1 [g]) true gs

/-- Go: Delayed.Write - updates the stored default print duration from the
optional trailing duration argument; if the result is zero or IgnoreDelays
is set, pushes one write operation with the whole text; otherwise divides
the print duration by the grapheme count (a Go division that panics when
the count is zero, hence the Option) and pushes one write per grapheme
with that delay interleaved before every grapheme except the first. -/
def Delayed.Write (d : Delayed) (text : Text) (printDuration : Option Int) :
    Option Delayed :=
  let d1 : Delayed :=
    { d with properties :=
        { d.properties with
            printDuration := getDuration printDuration d.properties.printDuration } }
  if d1.properties.printDuration = 0 || d1.properties.ignoreDelays then
    some (pushPrintOperation d1 text)
  else
    let graphemesCount := GraphemeClusterCount text
    match goDiv d1.properties.printDuration (Int.ofNat graphemesCount) with
    | none => none
    | some delayBetweenLetters =>
      some (writeGraphemes delayBetweenLetters d1 false text)

/-- The environment of one Do run: the sink oracle (error returned by the
k-th WriteString call), whether the cancel channel is nil (Do called with
no cancel argument), and the cancellation oracle (whether the cancel
channel fires before the k-th wait operation's timer). -/
structure ExecEnv where
  sinkErr : Nat → Option Nat
  cancelNil : Bool
  cancelFires : Nat → Bool

/-- Go: waitOperation.Run - selects the cancel channel against the
duration timer; a nil channel never fires, so the result is errCanceled
exactly when a non-nil cancel channel fires first, and nil otherwise. -/
def waitOperationRun (duration : Int) (cancelNil : Bool) (fires : Bool) :
    Option GoError :=
  if !cancelNil && fires then some GoError.canceled else none

/-- Go: writeOperation.Run - performs one WriteString call on the sink and
forwards its error verbatim; the cancel channel is ignored.  The call is
the wr-th sink call of the run. -/
def writeOperationRun (env : ExecEnv) (wr : Nat) : Option GoError :=
  (env.sinkErr wr).map GoError.sinkError

/-- Go: the loop inside Delayed.Do's goroutine.  Runs the operations front
to back; on a non-nil error it sends the error on the completion channel
unless errors.Is(err, errCanceled), then breaks.  Returns the trace of
texts the sink received and the values sent on the completion channel
from inside the loop; wr and wa count the write and wait operations
already run, indexing the oracles. -/
def drainLoop (env : ExecEnv) : List Operation → Nat → Nat →
    List Text × List (Option GoError)
  | [], _, _ => ([], [])
  | Operation.write t :: rest, wr, wa =>
    match writeOperationRun env wr with
    | some err => ([t], if errorsIsCanceled err then [] else [some err])
    | none =>
      let r := drainLoop env rest (wr + 1) wa
      (t :: r.1, r.2)
  | Operation.wait dur :: rest, wr, wa =>
    match waitOperationRun dur env.cancelNil (env.cancelFires wa) with
    | some err => ([], if errorsIsCanceled err then [] else [some err])
    | none => drainLoop env rest wr (wa + 1)

/-- The observable outcome of one Do call: the texts the sink received,
the values sent on the completion channel in order (none is Go nil), and
the Delayed state after the run. -/
structure DoResult where
  sinkTrace : List Text
  sent : List (Option GoError)
  final : Delayed
deriving DecidableEq, Repr

/-- Go: Delayed.Do - runs the drain loop, then unconditionally (the loop
having ended normally or by break) sets d.operations to nil and sends nil
on the completion channel. -/
def Delayed.Do (d : Delayed) (env : ExecEnv) : DoResult :=
  let r := drainLoop env d.operations 0 0
  { sinkTrace := r.1
    sent := r.2 ++ [none]
    final := { d with operations := [] } }

/-- Go: DoWait - builds a waitOperation with the duration and runs it with
a nil cancel channel, sending the result on a fresh channel.  The fires
argument is the environment's cancellation timing, irrelevant for a nil
channel. -/
def DoWait (duration : Int) (fires : Bool) : List (Option GoError) :=
  [waitOperationRun duration true fires]

/-- Number of write operations in a queue. -/
def countWrites (ops : List Operation) : Nat :=
  (ops.filter fun op => match op with | Operation.write _ => true | _ => false).length

/-- Number of wait operations in a queue. -/
def countWaits (ops : List Operation) : Nat :=
  (ops.filter fun op => match op with | Operation.wait _ => true | _ => false).length

/-- The durations of the wait operations of a queue, in order. -/
def waitDurations (ops : List Operation) : List Int :=
  ops.filterMap fun op => match op with
    | Operation.wait dur => some dur
    | Operation.write _ => none

/-- The operation sequence the spec describes for a delayed write: one
write per grapheme, a wait of the per-glyph delay before every grapheme
except the first. -/
def expectedOps (delay : Int) : Text → List Operation
  | [] => []
  | g :: gs =>
    Operation.write [g] ::
      (gs.map fun g1 => [Operation.wait delay, Operation.write [g1]]).flatten

/-- Invariant: every wait operation in the queue has a nonzero duration. -/
def WaitsNonzero (ops : List Operation) : Prop :=
  ∀ dur : Int, Operation.wait dur ∈ ops → dur ≠ 0

/-- A sample initial scheduler used by concrete witnesses: default
properties except the writer, all durations zero, delays not ignored. -/
def demo0 : Delayed :=
  { properties := { waitDuration := 0, printDuration := 0, ignoreDelays := false }
    operations := [] }

/-- A sample scheduler whose properties ignore delays. -/
def demoIgnore : Delayed :=
  { demo0 with properties := { demo0.properties with ignoreDelays := true } }

/-- A queue of three write operations. -/
def queue3 : Delayed :=
  { demo0 with operations :=
      [Operation.write ["x"], Operation.write ["y"], Operation.write ["z"]] }

/-- A queue of one write operation. -/
def queueOne : Delayed :=
  { demo0 with operations := [Operation.write ["x"]] }

/-- A queue write-wait-write, as in the spec's cancellation example. -/
def queueCancel : Delayed :=
  { demo0 with operations :=
      [Operation.write ["x"], Operation.wait 1, Operation.write ["y"]] }

/-- An environment whose sink fails on its second WriteString call and
with no cancel channel. -/
def envSecondFails : ExecEnv :=
  { sinkErr := fun k => if k = 1 then some 0 else none
    cancelNil := true
    cancelFires := fun _ => false }

/-- An environment whose sink fails on every WriteString call and with no
cancel channel. -/
def envFirstFails : ExecEnv :=
  { sinkErr := fun _ => some 0
    cancelNil := true
    cancelFires := fun _ => false }

/-- An environment with a healthy sink and a cancel channel that fires
before every wait timer (cancellation at time zero). -/
def envCancelNow : ExecEnv :=
  { sinkErr := fun _ => none
    cancelNil := false
    cancelFires := fun _ => true }

/-- An environment with a healthy sink and no cancel channel. -/
def envOk : ExecEnv :=
  { sinkErr := fun _ => none
    cancelNil := true
    cancelFires := fun _ => false }

/-- The texts of the write operations of a queue, in order: the sink
calls a full clean drain of that queue performs. -/
def writtenTexts (ops : List Operation) : List Text :=
  ops.filterMap fun op => match op with
    | Operation.write t => some t
    | Operation.wait _ => none

/-- Whether every operation of the list returns nil when run front to
back in the given environment, the write and wait oracles starting at
indices wr and wa: the drain loop traverses exactly such a prefix before
the first operation error of a run. -/
def runsClean (env : ExecEnv) : List Operation → Nat → Nat → Bool
  | [], _, _ => true
  | Operation.write _ :: rest, wr, wa =>
    match writeOperationRun env wr with
    | some _ => false
    | none => runsClean env rest (wr + 1) wa
  | Operation.wait dur :: rest, wr, wa =>
    match waitOperationRun dur env.cancelNil (env.cancelFires wa) with
    | some _ => false
    | none => runsClean env rest wr (wa + 1)

/-! ## Helper lemmas -/

theorem pushWaitOperation_properties (d : Delayed) (dur : Int) :
    (pushWaitOperation d dur).properties = d.properties := by
  unfold pushWaitOperation
  split <;> rfl

theorem pushPrintOperation_properties (d : Delayed) (t : Text) :
    (pushPrintOperation d t).properties = d.properties := rfl

theorem pushWaitOperation_of_active (d : Delayed) (dur : Int)
    (hI : d.properties.ignoreDelays = false) (h : dur ≠ 0) :
    pushWaitOperation d dur =
      { d with operations := d.operations ++ [Operation.wait dur] } := by
  simp [pushWaitOperation, hI, h]

theorem writeGraphemes_true_eq (delay : Int) (gs : Text) (d : Delayed)
    (hI : d.properties.ignoreDelays = false) (hd : delay ≠ 0) :
    writeGraphemes delay d true gs =
      { d with operations := d.operations ++
          (gs.map fun g => [Operation.wait delay, Operation.write [g]]).flatten } := by
  induction gs generalizing d with
  | nil => simp [writeGraphemes]
  | cons g gs ih =>
    rw [writeGraphemes]
    simp only [if_true]
    rw [pushWaitOperation_of_active d delay hI hd]
    rw [ih _ (by simpa [pushPrintOperation] using hI)]
    simp [pushPrintOperation, List.append_assoc]

theorem writeGraphemes_false_eq (delay : Int) (text : Text) (d : Delayed)
    (hI : d.properties.ignoreDelays = false) (hd : delay ≠ 0) :
    writeGraphemes delay d false text =
      { d with operations := d.operations ++ expectedOps delay text } := by
  cases text with
  | nil => simp [writeGraphemes, expectedOps]
  | cons g gs =>
    rw [writeGraphemes]
    simp only [if_false, Bool.false_eq_true]
    rw [writeGraphemes_true_eq delay gs _ (by simpa [pushPrintOperation] using hI) hd]
    simp [pushPrintOperation, expectedOps, List.append_assoc]

theorem writeGraphemes_zero_eq (text : Text) (b : Bool) (d : Delayed) :
    writeGraphemes 0 d b text =
      { d with operations := d.operations ++ text.map fun g => Operation.write [g] } := by
  induction text generalizing d b with
  | nil => simp [writeGraphemes]
  | cons g gs ih =>
    rw [writeGraphemes]
    have hpush : pushWaitOperation d 0 = d := by simp [pushWaitOperation]
    cases b <;>
      simp [hpush, ih, pushPrintOperation, List.append_assoc]

theorem countWrites_expectedOps (delay : Int) (text : Text) :
    countWrites (expectedOps delay text) = text.length := by
  cases text with
  | nil => rfl
  | cons g gs =>
    simp only [expectedOps, countWrites, List.filter_cons]
    induction gs with
    | nil => rfl
    | cons g1 gs1 ih =>
      simp only [List.map_cons, List.flatten_cons, List.filter_append] at ih ⊢
      simp only [List.filter_cons, List.length_append, List.length_cons] at ih ⊢
      simp_all

theorem countWaits_expectedOps (delay : Int) (text : Text) :
    countWaits (expectedOps delay text) = text.length - 1 := by
  cases text with
  | nil => rfl
  | cons g gs =>
    simp only [expectedOps, countWaits, List.filter_cons]
    induction gs with
    | nil => rfl
    | cons g1 gs1 ih =>
      simp only [List.map_cons, List.flatten_cons, List.filter_append] at ih ⊢
      simp only [List.filter_cons, List.length_append, List.length_cons] at ih ⊢
      simp_all

theorem waitDurations_expectedOps (delay : Int) (text : Text) :
    waitDurations (expectedOps delay text) =
      List.replicate (text.length - 1) delay := by
  cases text with
  | nil => rfl
  | cons g gs =>
    simp only [expectedOps, waitDurations, List.filterMap_cons]
    induction gs with
    | nil => rfl
    | cons g1 gs1 ih =>
      simp only [List.map_cons, List.flatten_cons, List.filterMap_append] at ih ⊢
      simp only [List.filterMap_cons, List.length_cons] at ih ⊢
      simp_all [List.replicate_succ]

theorem countWrites_cons_write (t : Text) (ops : List Operation) :
    countWrites (Operation.write t :: ops) = countWrites ops + 1 := by
  simp [countWrites, List.filter_cons]

theorem countWrites_cons_wait (dur : Int) (ops : List Operation) :
    countWrites (Operation.wait dur :: ops) = countWrites ops := by
  simp [countWrites, List.filter_cons]

theorem countWaits_cons_write (t : Text) (ops : List Operation) :
    countWaits (Operation.write t :: ops) = countWaits ops := by
  simp [countWaits, List.filter_cons]

theorem countWaits_cons_wait (dur : Int) (ops : List Operation) :
    countWaits (Operation.wait dur :: ops) = countWaits ops + 1 := by
  simp [countWaits, List.filter_cons]

theorem writtenTexts_cons_write (t : Text) (ops : List Operation) :
    writtenTexts (Operation.write t :: ops) = t :: writtenTexts ops := by
  simp [writtenTexts]

theorem writtenTexts_cons_wait (dur : Int) (ops : List Operation) :
    writtenTexts (Operation.wait dur :: ops) = writtenTexts ops := by
  simp [writtenTexts]

/-- Helper: the drain loop traverses a prefix whose operations all return
nil without sending anything, recording the prefix's write texts in the
sink trace and continuing on the remaining operations with the oracle
indices advanced by the prefix's write and wait counts. -/
theorem drainLoop_append_clean (env : ExecEnv) (pre rest : List Operation) :
    ∀ wr wa, runsClean env pre wr wa = true →
      drainLoop env (pre ++ rest) wr wa =
        (writtenTexts pre ++
            (drainLoop env rest (wr + countWrites pre) (wa + countWaits pre)).1,
          (drainLoop env rest (wr + countWrites pre) (wa + countWaits pre)).2) := by
  induction pre with
  | nil =>
    intro wr wa _
    simp [writtenTexts, countWrites, countWaits]
  | cons op pre ih =>
    intro wr wa hclean
    cases op with
    | write t =>
      cases h : writeOperationRun env wr with
      | some err => simp [runsClean, h] at hclean
      | none =>
        simp only [runsClean, h] at hclean
        rw [List.cons_append, drainLoop, h, ih (wr + 1) wa hclean]
        have harith : wr + 1 + countWrites pre =
            wr + countWrites (Operation.write t :: pre) := by
          rw [countWrites_cons_write]; omega
        rw [harith, countWaits_cons_write, writtenTexts_cons_write]
        simp
    | wait dur =>
      cases h : waitOperationRun dur env.cancelNil (env.cancelFires wa) with
      | some err => simp [runsClean, h] at hclean
      | none =>
        simp only [runsClean, h] at hclean
        rw [List.cons_append, drainLoop, h, ih wr (wa + 1) hclean]
        have harith : wa + 1 + countWaits pre =
            wa + countWaits (Operation.wait dur :: pre) := by
          rw [countWaits_cons_wait]; omega
        rw [harith, countWrites_cons_wait, writtenTexts_cons_wait]

/-! ## Claims -/

/-- C1, counterexample: with two graphemes and print duration 1, the
per-glyph delay 1/2 truncates to zero and pushWaitOperation drops it, so
the queue gains zero Wait operations, not the N-1 = 1 the claim demands
(each supposedly valued at the truncated quotient). -/
theorem write_waits_counterexample :
    (demo0.Write ["a", "b"] (some 1)).map (fun d => countWaits d.operations) ≠
      some (2 - 1) := by decide

/-- C1, amended: for text of grapheme count N > 0, print duration D > 0,
ignoreDelays false, and additionally a nonzero truncated quotient D/N, the
Write enqueue appends exactly the interleaved sequence: one Write per
grapheme with a Wait of duration D/N before every Write except the first,
hence N Writes and N-1 Waits all valued D/N.  (When D/N truncates to zero
the Waits are dropped entirely; see the counterexample.) -/
theorem write_interleaves_waits (d : Delayed) (text : Text) (D : Int)
    (hI : d.properties.ignoreDelays = false) (hN : 0 < text.length)
    (hD : 0 < D) (hq : D.tdiv (Int.ofNat text.length) ≠ 0) :
    ∃ d2, d.Write text (some D) = some d2 ∧
      d2.operations = d.operations ++
        expectedOps (D.tdiv (Int.ofNat text.length)) text ∧
      countWrites (expectedOps (D.tdiv (Int.ofNat text.length)) text) =
        text.length ∧
      countWaits (expectedOps (D.tdiv (Int.ofNat text.length)) text) =
        text.length - 1 ∧
      waitDurations (expectedOps (D.tdiv (Int.ofNat text.length)) text) =
        List.replicate (text.length - 1) (D.tdiv (Int.ofNat text.length)) := by
  have hD0 : D ≠ 0 := ne_of_gt hD
  have hne : text ≠ [] := List.length_pos.mp hN
  have hlen : (Int.ofNat text.length) ≠ 0 := by
    simpa using Nat.pos_iff_ne_zero.mp hN
  refine ⟨writeGraphemes (D.tdiv (Int.ofNat text.length))
      { d with properties := { d.properties with printDuration := D } } false text,
    ?_, ?_, countWrites_expectedOps _ _, countWaits_expectedOps _ _,
    waitDurations_expectedOps _ _⟩
  · simp [Delayed.Write, getDuration, GraphemeClusterCount, goDiv, hI, hD0, hlen,
      hne]
  · rw [writeGraphemes_false_eq _ _ _ (by simpa using hI) hq]

/-- C1, witness for the amended theorem at text of 2 graphemes and print
duration 2: the quotient is 1, so one Wait of duration 1 sits between the
two per-grapheme Writes. -/
theorem write_interleaves_waits_witness :
    ∃ d2, demo0.Write ["a", "b"] (some 2) = some d2 ∧
      d2.operations = demo0.operations ++
        expectedOps ((2 : Int).tdiv (Int.ofNat (["a", "b"] : Text).length))
          ["a", "b"] ∧
      countWrites (expectedOps
          ((2 : Int).tdiv (Int.ofNat (["a", "b"] : Text).length)) ["a", "b"]) =
        (["a", "b"] : Text).length ∧
      countWaits (expectedOps
          ((2 : Int).tdiv (Int.ofNat (["a", "b"] : Text).length)) ["a", "b"]) =
        (["a", "b"] : Text).length - 1 ∧
      waitDurations (expectedOps
          ((2 : Int).tdiv (Int.ofNat (["a", "b"] : Text).length)) ["a", "b"]) =
        List.replicate ((["a", "b"] : Text).length - 1)
          ((2 : Int).tdiv (Int.ofNat (["a", "b"] : Text).length)) :=
  write_interleaves_waits demo0 ["a", "b"] 2 rfl (by decide) (by decide)
    (by decide)

/-- C2: for the empty text (grapheme count zero), a nonzero print duration
and ignoreDelays false, Delayed.Write reaches the division of the print
duration by the grapheme count with a zero divisor, which in Go is a
runtime panic (modelled as none): the claimed single Write operation is
never produced and the claimed absence of a runtime fault does not hold of
the code. -/
theorem write_empty_divide_by_zero (d : Delayed) (D : Int)
    (hI : d.properties.ignoreDelays = false) (hD : D ≠ 0) :
    d.Write [] (some D) = none := by
  simp [Delayed.Write, getDuration, GraphemeClusterCount, goDiv, hI, hD]

/-- C2, witness: the empty text with print duration 1 on a fresh scheduler
hits the zero-divisor division. -/
theorem write_empty_divide_by_zero_witness : demo0.Write [] (some 1) = none :=
  write_empty_divide_by_zero demo0 1 rfl (by decide)

/-- C3, counterexample: with three writes queued and the sink failing on
the second, the operation after the break sets the queue to nil, so the
third (undrained) write is not retained, contradicting the claim that the
queue still contains it. -/
theorem do_sink_failure_retains_counterexample :
    Operation.write ["z"] ∉ (queue3.Do envSecondFails).final.operations := by
  decide

/-- C3, amended: on any non-canceled operation error - in this code,
always a sink error on some write, every operation before it having
returned nil - the drain stops at the failing operation: the sink
receives exactly the write calls of the clean prefix plus the failing
call itself (no later text reaches the sink, no later operation runs),
the first value sent on the completion channel is that sink error
verbatim, but the queue is cleared (set to nil) rather than retained.
Instantiated at a queue of three Writes failing on the second, the sink
receives exactly the first two write calls and the cleared queue does not
retain the third (undrained) operation. -/
theorem do_sink_failure_behavior (d : Delayed) (env : ExecEnv)
    (pre post : List Operation) (t : Text) (e : Nat)
    (hops : d.operations = pre ++ Operation.write t :: post)
    (hclean : runsClean env pre 0 0 = true)
    (herr : env.sinkErr (countWrites pre) = some e) :
    (d.Do env).sinkTrace = writtenTexts pre ++ [t] ∧
    (d.Do env).sent = [some (GoError.sinkError e), none] ∧
    (d.Do env).final.operations = [] := by
  have key := drainLoop_append_clean env pre (Operation.write t :: post) 0 0
    hclean
  simp only [Nat.zero_add] at key
  simp [Delayed.Do, hops, key, drainLoop, writeOperationRun, herr,
    errorsIsCanceled]

/-- C3, witness for the amended theorem on the concrete three-write queue
and an environment failing the second sink call: the sink receives the
first two texts, the error is the first completion value, and the third
operation is not retained. -/
theorem do_sink_failure_behavior_witness :
    (queue3.Do envSecondFails).sinkTrace =
      writtenTexts [Operation.write ["x"]] ++ [["y"]] ∧
    (queue3.Do envSecondFails).sent =
      [some (GoError.sinkError 0), none] ∧
    (queue3.Do envSecondFails).final.operations = [] :=
  do_sink_failure_behavior queue3 envSecondFails [Operation.write ["x"]]
    [Operation.write ["z"]] ["y"] 0 rfl (by decide) (by decide)

/-- C4, counterexample: with the write-wait-write queue and cancellation
firing at the first wait, the queue before the run is nonempty but after
the run it is empty - the claim that the queue is not cleared fails. -/
theorem do_cancel_retains_counterexample :
    queueCancel.operations ≠ [] ∧
    (queueCancel.Do envCancelNow).final.operations = [] := by
  decide

/-- C4, amended: for every execution in which some operation returns the
canceled outcome - necessarily a wait whose non-nil cancel channel fires,
every operation before it having returned nil, since the loop stops at
the first non-nil result - the drain stops at that operation: the sink
receives exactly the write calls of the clean prefix (no later operation
runs and no later text reaches the sink), the completion channel receives
exactly one value and it is success (nil), but the queue is cleared
rather than left intact. -/
theorem do_cancel_behavior (d : Delayed) (env : ExecEnv)
    (pre post : List Operation) (dur : Int)
    (hops : d.operations = pre ++ Operation.wait dur :: post)
    (hclean : runsClean env pre 0 0 = true)
    (hnil : env.cancelNil = false)
    (hf : env.cancelFires (countWaits pre) = true) :
    (d.Do env).sinkTrace = writtenTexts pre ∧
    (d.Do env).sent = [none] ∧
    (d.Do env).final.operations = [] := by
  have key := drainLoop_append_clean env pre (Operation.wait dur :: post) 0 0
    hclean
  simp only [Nat.zero_add] at key
  simp [Delayed.Do, hops, key, drainLoop, waitOperationRun, hnil, hf,
    errorsIsCanceled]

/-- C4, witness for the amended theorem on the concrete write-wait-write
queue with cancellation firing at time zero: only the first text reaches
the sink, success is signalled once, and the queue ends empty. -/
theorem do_cancel_behavior_witness :
    (queueCancel.Do envCancelNow).sinkTrace =
      writtenTexts [Operation.write ["x"]] ∧
    (queueCancel.Do envCancelNow).sent = [none] ∧
    (queueCancel.Do envCancelNow).final.operations = [] :=
  do_cancel_behavior queueCancel envCancelNow [Operation.write ["x"]]
    [Operation.write ["y"]] 1 rfl (by decide) rfl (by decide)

/-- C5: on the error path the goroutine of Do sends the sink error and
then, after the break, also sends nil: two values are sent on the
completion channel of that execution call, not exactly one as claimed
(with the idiomatic single-read caller the second send blocks forever
while holding the lock). -/
theorem do_error_sends_two_values (d : Delayed) (env : ExecEnv)
    (t : Text) (e : Nat)
    (hops : d.operations = [Operation.write t])
    (h0 : env.sinkErr 0 = some e) :
    (d.Do env).sent = [some (GoError.sinkError e), none] ∧
    (d.Do env).sent.length = 2 := by
  simp [Delayed.Do, hops, drainLoop, writeOperationRun, h0, errorsIsCanceled]

/-- C5, witness on the one-write queue whose sink fails immediately. -/
theorem do_error_sends_two_values_witness :
    (queueOne.Do envFirstFails).sent = [some (GoError.sinkError 0), none] ∧
    (queueOne.Do envFirstFails).sent.length = 2 :=
  do_error_sends_two_values queueOne envFirstFails ["x"] 0 rfl rfl

/-- Helper: with a healthy sink and no effective cancellation, the drain
loop sends nothing from inside the loop. -/
theorem drainLoop_ok_sends_nothing (env : ExecEnv)
    (hsink : ∀ k, env.sinkErr k = none)
    (hcancel : ∀ k, (!env.cancelNil && env.cancelFires k) = false) :
    ∀ ops wr wa, (drainLoop env ops wr wa).2 = [] := by
  intro ops
  induction ops with
  | nil => intro wr wa; rfl
  | cons op rest ih =>
    intro wr wa
    cases op with
    | write t => simp [drainLoop, writeOperationRun, hsink, ih]
    | wait dur => simp [drainLoop, waitOperationRun, hcancel, ih]

/-- C6: a run with no sink failure and no effective cancellation sends
exactly one success value and clears the queue; a second Do call on the
resulting state with no intervening enqueues runs zero operations (its
sink trace is empty) and sends exactly one success value, whatever its
environment. -/
theorem do_roundtrip (d : Delayed) (env env2 : ExecEnv)
    (hsink : ∀ k, env.sinkErr k = none)
    (hcancel : ∀ k, (!env.cancelNil && env.cancelFires k) = false) :
    (d.Do env).sent = [none] ∧
    (d.Do env).final.operations = [] ∧
    ((d.Do env).final.Do env2).sinkTrace = [] ∧
    ((d.Do env).final.Do env2).sent = [none] := by
  refine ⟨?_, rfl, rfl, rfl⟩
  simp [Delayed.Do, drainLoop_ok_sends_nothing env hsink hcancel]

/-- C6, witness on the three-write queue with a healthy environment. -/
theorem do_roundtrip_witness :
    (queue3.Do envOk).sent = [none] ∧
    (queue3.Do envOk).final.operations = [] ∧
    ((queue3.Do envOk).final.Do envOk).sinkTrace = [] ∧
    ((queue3.Do envOk).final.Do envOk).sent = [none] :=
  do_roundtrip queue3 envOk envOk (fun _ => rfl) (fun _ => rfl)

/-- C7: with ignoreDelays set, a Write enqueue appends exactly one Write
operation holding the whole text (regardless of the configured durations),
and a Wait enqueue appends zero operations while still updating the stored
default wait duration from the optional explicit argument. -/
theorem ignore_delays_enqueue (d : Delayed) (text : Text) (pD wD : Option Int)
    (hI : d.properties.ignoreDelays = true) :
    (∃ d2, d.Write text pD = some d2 ∧
        d2.operations = d.operations ++ [Operation.write text]) ∧
    (d.Wait wD).operations = d.operations ∧
    (d.Wait wD).properties.waitDuration =
      getDuration wD d.properties.waitDuration := by
  have hw : d.Write text pD = some (pushPrintOperation
      { d with properties := { d.properties with
          printDuration := getDuration pD d.properties.printDuration } } text) := by
    simp [Delayed.Write, hI]
  have hwait : d.Wait wD = { d with properties := { d.properties with
      waitDuration := getDuration wD d.properties.waitDuration } } := by
    unfold Delayed.Wait
    simp [pushWaitOperation, hI]
  exact ⟨⟨_, hw, rfl⟩, by rw [hwait], by rw [hwait]⟩

/-- C7, witness on a scheduler ignoring delays, with explicit durations. -/
theorem ignore_delays_enqueue_witness :
    (∃ d2, demoIgnore.Write ["a", "b"] (some 5) = some d2 ∧
        d2.operations = demoIgnore.operations ++ [Operation.write ["a", "b"]]) ∧
    (demoIgnore.Wait (some 5)).operations = demoIgnore.operations ∧
    (demoIgnore.Wait (some 5)).properties.waitDuration =
      getDuration (some 5) demoIgnore.properties.waitDuration :=
  ignore_delays_enqueue demoIgnore ["a", "b"] (some 5) (some 5) rfl

/-- C8: when the effective wait duration (the explicit argument if given,
else the stored default) is zero, the Wait enqueue leaves the queue
unchanged, for any configuration (ignoreDelays true or false). -/
theorem wait_zero_duration_no_enqueue (d : Delayed) (wD : Option Int)
    (h : getDuration wD d.properties.waitDuration = 0) :
    (d.Wait wD).operations = d.operations := by
  unfold Delayed.Wait
  simp [h]

/-- C8, witness: an explicit zero duration on a fresh scheduler. -/
theorem wait_zero_duration_no_enqueue_witness :
    (demo0.Wait (some 0)).operations = demo0.operations :=
  wait_zero_duration_no_enqueue demo0 (some 0) rfl

/-- Helper: the waits-nonzero invariant splits over list append. -/
theorem waitsNonzero_append (l1 l2 : List Operation) :
    WaitsNonzero (l1 ++ l2) ↔ WaitsNonzero l1 ∧ WaitsNonzero l2 := by
  simp [WaitsNonzero, List.mem_append, or_imp, forall_and]

/-- Helper: pushWaitOperation preserves the waits-nonzero invariant, its
guard dropping exactly the zero durations. -/
theorem waitsNonzero_pushWait (d : Delayed) (dur : Int)
    (h : WaitsNonzero d.operations) :
    WaitsNonzero (pushWaitOperation d dur).operations := by
  unfold pushWaitOperation
  split
  · rename_i hcond
    simp only [Bool.and_eq_true, bne_iff_ne, ne_eq] at hcond
    show WaitsNonzero (d.operations ++ [Operation.wait dur])
    rw [waitsNonzero_append]
    refine ⟨h, ?_⟩
    intro dur2 hmem
    simp only [List.mem_singleton, Operation.wait.injEq] at hmem
    exact hmem ▸ hcond.2
  · exact h

/-- Helper: pushPrintOperation preserves the waits-nonzero invariant. -/
theorem waitsNonzero_pushPrint (d : Delayed) (t : Text)
    (h : WaitsNonzero d.operations) :
    WaitsNonzero (pushPrintOperation d t).operations := by
  show WaitsNonzero (d.operations ++ [Operation.write t])
  rw [waitsNonzero_append]
  exact ⟨h, by simp [WaitsNonzero]⟩

/-- Helper: the grapheme loop of Write preserves the waits-nonzero
invariant for any delay and starting flag. -/
theorem waitsNonzero_writeGraphemes (delay : Int) (gs : Text) (b : Bool)
    (d : Delayed) (h : WaitsNonzero d.operations) :
    WaitsNonzero (writeGraphemes delay d b gs).operations := by
  induction gs generalizing d b with
  | nil => simpa [writeGraphemes] using h
  | cons g gs ih =>
    rw [writeGraphemes]
    cases b with
    | false =>
      simp only [Bool.false_eq_true, if_false]
      exact ih _ _ (waitsNonzero_pushPrint _ _ h)
    | true =>
      simp only [if_true]
      exact ih _ _ (waitsNonzero_pushPrint _ _ (waitsNonzero_pushWait _ _ h))

/-- C9: both enqueue operations preserve the invariant that every Wait in
the queue has a nonzero duration - Wait for any optional argument, Write
for any text and optional duration; and in the degenerate case where the
truncated per-glyph quotient is zero, Write appends exactly one Write per
grapheme with no interleaved Wait operations. -/
theorem enqueue_preserves_waits_nonzero (d : Delayed) (text : Text)
    (wD pD : Option Int) (hinv : WaitsNonzero d.operations) :
    WaitsNonzero (d.Wait wD).operations ∧
    (∀ d2, d.Write text pD = some d2 → WaitsNonzero d2.operations) ∧
    (∀ D : Int, d.properties.ignoreDelays = false → D ≠ 0 → text ≠ [] →
      D.tdiv (Int.ofNat text.length) = 0 →
      ∃ d2, d.Write text (some D) = some d2 ∧
        d2.operations = d.operations ++ text.map fun g => Operation.write [g]) := by
  refine ⟨?_, ?_, ?_⟩
  · unfold Delayed.Wait
    dsimp only
    split
    · exact hinv
    · exact waitsNonzero_pushWait _ _ hinv
  · intro d2 hd2
    unfold Delayed.Write at hd2
    dsimp only at hd2
    split at hd2
    · cases hd2
      exact waitsNonzero_pushPrint _ _ hinv
    · split at hd2
      · cases hd2
      · cases hd2
        exact waitsNonzero_writeGraphemes _ _ _ _ hinv
  · intro D hI hD0 hne hq0
    have hlen : (Int.ofNat text.length) ≠ 0 := by
      simpa using fun h => hne (List.length_eq_zero.mp h)
    refine ⟨writeGraphemes 0
        { d with properties := { d.properties with printDuration := D } }
        false text, ?_, ?_⟩
    · have hq1 : D.tdiv ((text.length : Int)) = 0 := hq0
      simp [Delayed.Write, getDuration, GraphemeClusterCount, goDiv,
        hI, hD0, hlen, hne, hq0, hq1]
    · rw [writeGraphemes_zero_eq]

/-- C9, witness at a fresh scheduler with a two-grapheme text and explicit
durations. -/
theorem enqueue_preserves_waits_nonzero_witness :
    WaitsNonzero (demo0.Wait (some 1)).operations ∧
    (∀ d2, demo0.Write ["a", "b"] (some 1) = some d2 →
      WaitsNonzero d2.operations) ∧
    (∀ D : Int, demo0.properties.ignoreDelays = false → D ≠ 0 →
      (["a", "b"] : Text) ≠ [] →
      D.tdiv (Int.ofNat (["a", "b"] : Text).length) = 0 →
      ∃ d2, demo0.Write ["a", "b"] (some D) = some d2 ∧
        d2.operations = demo0.operations ++
          (["a", "b"] : Text).map fun g => Operation.write [g]) :=
  enqueue_preserves_waits_nonzero demo0 ["a", "b"] (some 1) (some 1)
    (by simp [WaitsNonzero, demo0])

/-- C10: DoWait runs its wait operation with a nil cancel channel, for
which the select's cancel case can never fire: whatever the environment's
cancellation timing, the returned channel receives exactly one value and
it is nil (success) - the canceled outcome is unreachable and the wait is
uninterruptible. -/
theorem doWait_never_canceled (duration : Int) (fires : Bool) :
    DoWait duration fires = [none] := by
  simp [DoWait, waitOperationRun]
